import Mathlib

/-!
Verification development for the Mini financial data Platform:
a shallow embedding of `src/data/processor.py`, `src/utils/helpers.py`,
`src/models/database.py` and `src/api/routes.py`, with theorems checking
the specification's claims about the pipeline.

Numbers are modelled as exact rationals (IEEE rounding and overflow are
not modelled); where the NaN/infinity behaviour of numpy matters
(`calculate_daily_return`), scalars are modelled by `PyFloat`, which
carries the special values explicitly.
-/

/-- Idealized Python/numpy float scalar: exact rational values plus the
special values NaN and the two infinities produced by division by zero.
Rounding and overflow of IEEE doubles are not modelled (arithmetic on
finite values is exact), but the NaN/infinity propagation rules of
numpy element-wise operations are.  Negative zero is identified with
zero (divisions use the positive-zero rule `x / 0.0 = +-inf`). -/
inductive PyFloat where
  | nan : PyFloat
  | inf : PyFloat
  | ninf : PyFloat
  | val : ℚ → PyFloat
deriving DecidableEq

/-- numpy element-wise subtraction (used for `close - open`). -/
def PyFloat.sub : PyFloat → PyFloat → PyFloat
  | .nan, _ => .nan
  | _, .nan => .nan
  | .inf, .inf => .nan
  | .inf, _ => .inf
  | .ninf, .ninf => .nan
  | .ninf, _ => .ninf
  | .val _, .inf => .ninf
  | .val _, .ninf => .inf
  | .val a, .val b => .val (a - b)

/-- numpy element-wise division: `x / 0.0` is NaN when `x = 0.0` and a
signed infinity otherwise; infinities divided by infinities are NaN;
a finite value divided by an infinity is 0. -/
def PyFloat.div : PyFloat → PyFloat → PyFloat
  | .nan, _ => .nan
  | _, .nan => .nan
  | .inf, .inf => .nan
  | .inf, .ninf => .nan
  | .ninf, .inf => .nan
  | .ninf, .ninf => .nan
  | .inf, .val b => if b < 0 then .ninf else .inf
  | .ninf, .val b => if b < 0 then .inf else .ninf
  | .val _, .inf => .val 0
  | .val _, .ninf => .val 0
  | .val a, .val b =>
      if b = 0 then (if a = 0 then .nan else if 0 < a then .inf else .ninf)
      else .val (a / b)

/-- `Series.fillna(0)`: replaces NaN — and only NaN — by 0.  Infinities
pass through unchanged. -/
def PyFloat.fillna0 : PyFloat → PyFloat
  | .nan => .val 0
  | x => x

/-- One row of a raw price frame as seen by
`StockDataProcessor.calculate_daily_return` (only the two columns the
method reads). -/
structure FBar where
  open_ : PyFloat
  close : PyFloat
deriving DecidableEq

/-- The scalar semantics of one element of the `daily_return` column:
`(close - open) / open` followed by `fillna(0)`
(`src/data/processor.py`, `calculate_daily_return`). -/
def daily_return_of (o c : PyFloat) : PyFloat :=
  PyFloat.fillna0 ((PyFloat.sub c o).div o)

/-- `StockDataProcessor.calculate_daily_return`, as the `daily_return`
column it appends: `df['daily_return'] = (df['close'] - df['open']) /
df['open']` then `fillna(0)`, element-wise over the frame. -/
def calculate_daily_return (df : List FBar) : List PyFloat :=
  df.map (fun r => daily_return_of r.open_ r.close)

/-- Ascending insertion of `a` into `l` by an integer key. -/
def insertByKey {α : Type} (key : α → ℤ) (a : α) : List α → List α
  | [] => [a]
  | b :: l => if key a ≤ key b then a :: b :: l else b :: insertByKey key a l

/-- `DataFrame.sort_values` by an integer key, ascending.  The pandas
sort is unstable, so the order among rows with equal keys is
unspecified in the source; insertion sort fixes one admissible order. -/
def sortByKey {α : Type} (key : α → ℤ) : List α → List α
  | [] => []
  | a :: l => insertByKey key a (sortByKey key l)

/-- A list is ordered ascending by the key. -/
@[reducible] def KeySorted {α : Type} (key : α → ℤ) (l : List α) : Prop :=
  List.Pairwise (fun a b => key a ≤ key b) l

/-- `Series.rolling(window=w, min_periods=1).mean()` over a column of
finite values: entry `i` is the mean of the trailing window ending at
`i` (the window is `position + 1` wide until the nominal width `w` is
reached). -/
def rollingMean (w : ℕ) (xs : List ℚ) : List ℚ :=
  (List.range xs.length).map (fun i =>
    let win := (xs.take (i + 1)).drop (i + 1 - w)
    win.sum / (win.length : ℚ))

/-- Sample variance (`ddof = 1`, as pandas `rolling.std` uses) of a
window of finite values; meaningful only for windows of length ≥ 2. -/
def sampleVar (win : List ℚ) : ℚ :=
  let m := win.sum / (win.length : ℚ)
  (win.map (fun x => (x - m) ^ 2)).sum / ((win.length : ℚ) - 1)

/-- `Series.rolling(window=w, min_periods=1).std() * sqrt(252)` then
`fillna(0)`: windows of a single element have undefined sample standard
deviation (NaN), which `fillna` turns into 0. -/
noncomputable def rollingVol (w : ℕ) (xs : List ℚ) : List ℝ :=
  (List.range xs.length).map (fun i =>
    let win := (xs.take (i + 1)).drop (i + 1 - w)
    if win.length ≤ 1 then 0
    else Real.sqrt ((sampleVar win : ℝ)) * Real.sqrt 252)

/-- One raw bar as the collector returns it (lower-cased columns, the
date coerced to a calendar date, here a day number).  A missing cell
(NaN) is `none`; the date index is never missing. -/
structure RawRow where
  date : ℤ
  open_ : Option ℚ
  high : Option ℚ
  low : Option ℚ
  close : Option ℚ
  volume : Option ℤ

/-- A cleaned bar: `clean_data` guarantees a finite positive close. -/
structure CRow where
  date : ℤ
  open_ : Option ℚ
  high : Option ℚ
  low : Option ℚ
  close : ℚ
  volume : Option ℤ

/-- A bar with the `daily_return` column appended. -/
structure DRow where
  date : ℤ
  open_ : Option ℚ
  high : Option ℚ
  low : Option ℚ
  close : ℚ
  volume : Option ℤ
  daily_return : ℚ

/-- A bar with the `ma_7` column appended. -/
structure MRow where
  date : ℤ
  open_ : Option ℚ
  high : Option ℚ
  low : Option ℚ
  close : ℚ
  volume : Option ℤ
  daily_return : ℚ
  ma_7 : ℚ

/-- A fully enriched bar (with `volatility_score`). -/
structure PRow where
  date : ℤ
  open_ : Option ℚ
  high : Option ℚ
  low : Option ℚ
  close : ℚ
  volume : Option ℤ
  daily_return : ℚ
  ma_7 : ℚ
  volatility_score : ℝ

/-- Row-wise forward fill of the five price columns, carrying the last
seen value of each column (column-wise `Series.ffill`, fused into one
pass; the columns are filled independently). -/
def ffillFrom : Option ℚ → Option ℚ → Option ℚ → Option ℚ → Option ℤ →
    List RawRow → List RawRow
  | _, _, _, _, _, [] => []
  | o, h, lo, c, v, r :: l =>
    let o2 := r.open_.or o
    let h2 := r.high.or h
    let lo2 := r.low.or lo
    let c2 := r.close.or c
    let v2 := r.volume.or v
    ⟨r.date, o2, h2, lo2, c2, v2⟩ :: ffillFrom o2 h2 lo2 c2 v2 l

/-- `df[col].ffill()` applied to each price column. -/
def ffillCols (df : List RawRow) : List RawRow :=
  ffillFrom none none none none none df

/-- `df.bfill()`: backward fill, i.e. forward fill of the reversed
frame (the date index has no missing values, so it is unaffected). -/
def bfillCols (df : List RawRow) : List RawRow :=
  (ffillCols df.reverse).reverse

/-- `StockDataProcessor.clean_data`: `dropna(how='all')` is a no-op
because the date cell is never missing; forward fill then backward
fill the price columns; drop rows whose close is missing or not
positive (`df_clean['close'] > 0` is false for NaN); sort ascending by
date and re-index. -/
def clean_data (df : List RawRow) : List CRow :=
  let filled := bfillCols (ffillCols df)
  let kept := filled.filterMap (fun r =>
    match r.close with
    | some c => if 0 < c then some (CRow.mk r.date r.open_ r.high r.low c r.volume) else none
    | none => none)
  sortByKey (fun r => r.date) kept

/-- The `daily_return` stage of `process_data`, restricted to the
validated frames `clean_data` produces, over exact rationals: a missing
`open` gives NaN, which `fillna(0)` turns into 0.  For `open = 0` the
rational convention `x / 0 = 0` stands in for the infinity numpy
produces (see `daily_return_of` for the faithful scalar semantics);
no claim reads this value through the pipeline. -/
def calculate_daily_return_q (df : List CRow) : List DRow :=
  df.map (fun r =>
    DRow.mk r.date r.open_ r.high r.low r.close r.volume
      (match r.open_ with
       | none => 0
       | some o => (r.close - o) / o))

/-- `StockDataProcessor.calculate_moving_average`: appends the rolling
mean of the close column as `ma_7` (window `w`, `min_periods=1`). -/
def calculate_moving_average (w : ℕ) (df : List DRow) : List MRow :=
  List.zipWith
    (fun r m => MRow.mk r.date r.open_ r.high r.low r.close r.volume r.daily_return m)
    df (rollingMean w (df.map (fun r => r.close)))

/-- `StockDataProcessor.calculate_volatility_score`: appends the
annualized rolling standard deviation of `daily_return`. -/
noncomputable def calculate_volatility_score (w : ℕ) (df : List MRow) : List PRow :=
  List.zipWith
    (fun r v => PRow.mk r.date r.open_ r.high r.low r.close r.volume r.daily_return r.ma_7 v)
    df (rollingVol w (df.map (fun r => r.daily_return)))

/-- `StockDataProcessor.process_data`: clean, then daily return, then
7-day moving average, then 30-day volatility (an empty frame maps to an
empty frame, as in the source's early return). -/
noncomputable def process_data (df : List RawRow) : List PRow :=
  calculate_volatility_score 30 (calculate_moving_average 7 (calculate_daily_return_q (clean_data df)))

/-- One persisted row of the `stock_data` table
(`src/models/database.py`, `StockData`): nullable derived columns, a
`(symbol, date)` unique constraint enforced by the storage layer. -/
structure SRow where
  symbol : String
  date : ℤ
  open_ : Option ℚ
  high : Option ℚ
  low : Option ℚ
  close : ℚ
  volume : Option ℤ
  daily_return : Option ℚ
  ma_7 : Option ℚ
  volatility_score : Option ℝ

/-- One record of the JSON `data` array of the `/data/{symbol}`
response (the same nine columns on both the cache-hit and the fetch
path). -/
structure RespRow where
  date : ℤ
  open_ : Option ℚ
  high : Option ℚ
  low : Option ℚ
  close : ℚ
  volume : Option ℤ
  daily_return : Option ℚ
  ma_7 : Option ℚ
  volatility_score : Option ℝ

/-- The failure modes of `/data/{symbol}`: 400/404 on a bad or unknown
symbol, 404 when no data is available, 500 when an unexpected exception
escapes to the outer handler. -/
inductive ErrKind where
  | badSymbol : ErrKind
  | notFound : ErrKind
  | serverError : ErrKind
deriving DecidableEq

/-- Outcome of one `/data/{symbol}` request: the HTTP-level result,
whether the remote fetcher was invoked, and the store after the
request. -/
structure RouteResult where
  response : Except ErrKind (List RespRow)
  fetchCalled : Bool
  storeAfter : List SRow

/-- `StockDataCollector.INDIAN_STOCKS.keys()` — the catalog of known
tickers (`get_available_companies`). -/
def availableCompanies : List String :=
  ["TCS", "INFY", "RELIANCE", "HDFCBANK", "ICICIBANK", "WIPRO", "HCLTECH"]

/-- The windowed store read of the route:
`db.query(StockData).filter(symbol == sym, date >= cutoff)`.  The
query's descending ordering is dropped here: the route re-sorts before
every use and otherwise reads the rows only as a set of dates. -/
def windowRead (store : List SRow) (sym : String) (cutoff : ℤ) : List SRow :=
  store.filter (fun r => r.symbol == sym && decide (cutoff ≤ r.date))

/-- Two rows collide on the `uq_symbol_date` unique constraint. -/
def keyClash (a b : SRow) : Bool :=
  a.symbol == b.symbol && a.date == b.date

/-- No two of the rows of a batch collide with each other. -/
def noDupKeys : List SRow → Bool
  | [] => true
  | r :: l => l.all (fun s => !(keyClash r s)) && noDupKeys l

/-- A bulk insert succeeds iff no inserted row violates the
`(symbol, date)` unique constraint, either against the stored rows or
within the batch itself; otherwise the storage layer raises
`IntegrityError` and the transaction rolls back. -/
def insertAdmissible (store newRecs : List SRow) : Bool :=
  noDupKeys newRecs && newRecs.all (fun r => store.all (fun s => !(keyClash r s)))

/-- `StockData(symbol=..., **row)` — an enriched bar as the route
persists it. -/
def srowOfP (sym : String) (p : PRow) : SRow :=
  ⟨sym, p.date, p.open_, p.high, p.low, p.close, p.volume,
    some p.daily_return, some p.ma_7, some p.volatility_score⟩

/-- A stored row as the route serializes it (the symbol column is not
part of the response records). -/
def respOfS (r : SRow) : RespRow :=
  ⟨r.date, r.open_, r.high, r.low, r.close, r.volume,
    r.daily_return, r.ma_7, r.volatility_score⟩

/-- A freshly enriched bar as the route serializes it. -/
def respOfP (p : PRow) : RespRow :=
  ⟨p.date, p.open_, p.high, p.low, p.close, p.volume,
    some p.daily_return, some p.ma_7, some p.volatility_score⟩

/-- The `new_records` list of the fetch path: the batch rows whose
date is not among the dates of the windowed read (`existing_dates`),
turned into store rows for the symbol. -/
def newRecsOf (store : List SRow) (sym : String) (cutoff : ℤ) (batch : List PRow) : List SRow :=
  (batch.filter (fun p =>
    !(((windowRead store sym cutoff).map (fun r => r.date)).contains p.date))).map (srowOfP sym)

/-- The store-update step of the fetch path (`Store.merge` of the
spec): rows of the batch whose date is already present in the windowed
read are skipped; the remaining rows are bulk-inserted, and on an
`IntegrityError` (a unique-key violation against rows outside the
window, or within the batch) the whole batch rolls back and the store
is unchanged. -/
def store_merge (store : List SRow) (sym : String) (cutoff : ℤ) (batch : List PRow) : List SRow :=
  let newRecs := newRecsOf store sym cutoff batch
  if newRecs.isEmpty then store
  else if insertAdmissible store newRecs then store ++ newRecs
  else store

/-- The fetched frame after `process_data`, `sort_values("date")` and
`df.tail(days) if len(df) > days else df`. -/
noncomputable def trimmedFrame (raw : List RawRow) (days : ℕ) : List PRow :=
  let sorted := sortByKey (fun p => p.date) (process_data raw)
  if decide (days < sorted.length) then sorted.drop (sorted.length - days) else sorted

/-- `get_stock_data` (`src/api/routes.py`): the `/data/{symbol}`
endpoint.  `fetched` is the frame `collector.fetch_stock_data` would
return (`none` for a failed or empty fetch); `persistFails` injects an
environmental persistence failure other than `IntegrityError` (the
route logs those and re-raises, which the outer handler turns into a
500).  `sym` is the path parameter after the route's `upper().strip()`
normalization and emptiness checks (the empty string is simply not in
the catalog, so those checks fold into the catalog test). -/
noncomputable def get_stock_data (store : List SRow) (sym : String) (days : ℕ) (today : ℤ)
    (fetched : Option (List RawRow)) (persistFails : Bool) : RouteResult :=
  if !(availableCompanies.contains sym) then ⟨.error .badSymbol, false, store⟩ else
  let cutoff := today - (days : ℤ)
  let records := windowRead store sym cutoff
  if !records.isEmpty && decide (days ≤ records.length) then
    ⟨.ok (sortByKey (fun r => r.date) (records.map respOfS)), false, store⟩
  else
    match fetched with
    | none => ⟨.error .notFound, true, store⟩
    | some raw =>
      if raw.isEmpty then ⟨.error .notFound, true, store⟩ else
      let df := trimmedFrame raw days
      let newRecs := newRecsOf store sym cutoff df
      let resp := df.map respOfP
      if newRecs.isEmpty then ⟨.ok resp, true, store⟩
      else if persistFails then ⟨.error .serverError, true, store⟩
      else ⟨.ok resp, true, store_merge store sym cutoff df⟩

/-- Maximum of a nonempty column (`Series.max`; 0 for the empty frame,
which callers rule out). -/
def listMax : List ℚ → ℚ
  | [] => 0
  | x :: xs => xs.foldl max x

/-- Minimum of a nonempty column (`Series.min`). -/
def listMin : List ℚ → ℚ
  | [] => 0
  | x :: xs => xs.foldl min x

/-- `Series.max` over a column with missing cells: NaN entries are
skipped (pandas `skipna`); an all-NaN column is an edge no claim
reaches, modelled as 0. -/
def optMax (l : List (Option ℚ)) : ℚ :=
  listMax (l.filterMap id)

/-- `Series.min` over a column with missing cells, skipping NaN. -/
def optMin (l : List (Option ℚ)) : ℚ :=
  listMin (l.filterMap id)

/-- The `summary` dictionary of the `/summary/{symbol}` response. -/
structure SummaryStats where
  high_52w : ℚ
  low_52w : ℚ
  avg_close : ℚ
  current_close : ℚ

/-- `get_stock_summary` (`src/api/routes.py`): reads every stored row
for the symbol ordered by date, 404 (`none`) when there are none, and
computes all four summary fields from the `close` column alone.
`sym` is the path parameter after the route's `upper()`
normalization. -/
def get_stock_summary (store : List SRow) (sym : String) : Option SummaryStats :=
  let records := sortByKey (fun r => r.date) (store.filter (fun r => r.symbol == sym))
  if records.isEmpty then none
  else
    let closes := records.map (fun r => r.close)
    some ⟨listMax closes, listMin closes, closes.sum / (closes.length : ℚ), closes.getLastD 0⟩

/-- The result of `StockDataProcessor.calculate_52week_high_low`. -/
structure HL where
  high_52w : ℚ
  low_52w : ℚ

/-- `StockDataProcessor.calculate_52week_high_low`: the trailing 252
bars (`df.tail(252)` when the frame has at least 252 rows, the whole
frame otherwise), maximum of the `high` column and minimum of the
`low` column. -/
def calculate_52week_high_low (df : List RespRow) : HL :=
  let df52 := if 252 ≤ df.length then df.drop (df.length - 252) else df
  ⟨optMax (df52.map (fun r => r.high)), optMin (df52.map (fun r => r.low))⟩

/-- Python's `round` to an integer: half-to-even (exact halves of the
idealized rational value round to the even neighbour). -/
def roundHalfEven (q : ℚ) : ℤ :=
  let f := Int.floor q
  let r := q - (f : ℚ)
  if r < 1 / 2 then f
  else if 1 / 2 < r then f + 1
  else if f % 2 = 0 then f else f + 1

/-- Python's `round(x, 2)`. -/
def round2 (q : ℚ) : ℚ :=
  (roundHalfEven (q * 100) : ℚ) / 100

/-- The `total_return_pct` entry of
`calculate_performance_metrics` (`src/utils/helpers.py`):
`(last.close - first.close) / first.close * 100` rounded to two
decimals, 0 when `first.close <= 0`; an empty frame yields the empty
metrics dictionary, whose `.get('total_return_pct', 0)` is 0. -/
def total_return_pct (df : List RespRow) : ℚ :=
  match df with
  | [] => 0
  | r :: rest =>
    let first := r.close
    let lastc := (rest.getLastD r).close
    if 0 < first then round2 ((lastc - first) / first * 100) else 0

/-- The `better_performer` insight of `compare_stocks`
(`src/api/routes.py` line 331): `symbol1_upper` iff the first ticker's
`total_return_pct` is strictly greater, otherwise `symbol2_upper`.
The arguments are the upper-cased symbols the route computed on
entry. -/
def better_performer (s1U s2U : String) (df1 df2 : List RespRow) : String :=
  if total_return_pct df2 < total_return_pct df1 then s1U else s2U

/-- One row of the two-column projection `df[['date', 'close']]` that
`calculate_correlation` merges; a missing close (NaN) is `none`. -/
structure CorrRow where
  date : ℤ
  close : Option ℚ

/-- A frame as `calculate_correlation` receives it: the rows plus
whether the `date` and `close` columns exist at all (the helper guards
on both). -/
structure CorrFrame where
  hasDate : Bool
  hasClose : Bool
  rows : List CorrRow

/-- `pd.merge(df1[['date','close']], df2[['date','close']], on='date',
how='inner')`: one output pair per matching pair of rows, ordered by
the left frame's rows and, within one left row, by the right frame's
rows — exactly the pandas inner-merge ordering. -/
def pairsAll (A B : List CorrRow) : List (Option ℚ × Option ℚ) :=
  A.flatMap (fun a => (B.filter (fun b => b.date == a.date)).map (fun b => (a.close, b.close)))

/-- `merged.dropna(subset=['close_1', 'close_2'])`: the aligned pairs
in which both closes are present. -/
def validPairs (A B : List CorrRow) : List (ℚ × ℚ) :=
  (pairsAll A B).filterMap (fun p =>
    match p.1, p.2 with
    | some x, some y => some (x, y)
    | _, _ => none)

/-- The Pearson coefficient in terms of the six sufficient statistics
(count and the sums of x, y, xy, x², y²), with pandas' NaN result
(either column constant, i.e. a zero scaled variance) mapped to 0 as
the caller does via `pd.isna`. -/
noncomputable def pearsonOf (n sx sy sxy sxx syy : ℚ) : ℝ :=
  if n * sxx - sx * sx = 0 ∨ n * syy - sy * sy = 0 then 0
  else ((n * sxy - sx * sy : ℚ) : ℝ) /
    Real.sqrt (((n * sxx - sx * sx : ℚ) : ℝ) * ((n * syy - sy * sy : ℚ) : ℝ))

/-- `Series.corr` (Pearson) over the aligned pairs. -/
noncomputable def pearson (ps : List (ℚ × ℚ)) : ℝ :=
  pearsonOf (ps.length : ℚ) ((ps.map (fun p => p.1)).sum) ((ps.map (fun p => p.2)).sum)
    ((ps.map (fun p => p.1 * p.2)).sum) ((ps.map (fun p => p.1 * p.1)).sum)
    ((ps.map (fun p => p.2 * p.2)).sum)

/-- `max(-1.0, min(1.0, result))`. -/
noncomputable def clamp01 (x : ℝ) : ℝ :=
  max (-1) (min 1 x)

/-- `calculate_correlation` (`src/utils/helpers.py`): 0 for an empty
frame, a frame missing its `date` or `close` column, fewer than 2
aligned pairs, fewer than 2 valid pairs after dropping NaN, or an
undefined correlation; otherwise the Pearson coefficient of the
aligned close columns, clamped to `[-1, 1]`. -/
noncomputable def calculate_correlation (df1 df2 : CorrFrame) : ℝ :=
  if df1.rows.isEmpty || df2.rows.isEmpty then 0
  else if !df1.hasDate || !df1.hasClose then 0
  else if !df2.hasDate || !df2.hasClose then 0
  else if (pairsAll df1.rows df2.rows).length < 2 then 0
  else if (validPairs df1.rows df2.rows).length < 2 then 0
  else clamp01 (pearson (validPairs df1.rows df2.rows))

/-- Placeholder `DRow` for out-of-range `getD` reads. -/
def dDRow : DRow := ⟨0, none, none, none, 0, none, 0⟩

/-- Placeholder `MRow` for out-of-range `getD` reads. -/
def dMRow : MRow := ⟨0, none, none, none, 0, none, 0, 0⟩

/-- A two-bar frame whose close doubles: total return 100%. -/
def dfDoubling : List RespRow :=
  [⟨0, none, none, none, 1, none, none, none, none⟩,
   ⟨1, none, none, none, 2, none, none, none, none⟩]

/-- A one-bar frame: total return 0%. -/
def dfFlat : List RespRow :=
  [⟨0, none, none, none, 10, none, none, none, none⟩]

/-- A raw bar with every cell present and a positive close — the shape
of normal provider data (the C2 scenario's "enriched bars"). -/
def ValidRaw (r : RawRow) : Prop :=
  r.open_.isSome = true ∧ r.high.isSome = true ∧ r.low.isSome = true ∧
    (0 < r.close.getD 0 ∧ r.close.isSome = true) ∧ r.volume.isSome = true

instance validRawDecidable (r : RawRow) : Decidable (ValidRaw r) := by
  unfold ValidRaw
  exact inferInstance

/-- The cleaned form of a fully present raw bar. -/
def toCRow (r : RawRow) : CRow :=
  ⟨r.date, r.open_, r.high, r.low, r.close.getD 0, r.volume⟩

/-- The C2 scenario's ten fetched bars, dated 1 through 10. -/
def c2raw : List RawRow :=
  [⟨1, some 1, some 2, some 1, some 1, some 10⟩,
   ⟨2, some 1, some 2, some 1, some 2, some 10⟩,
   ⟨3, some 1, some 2, some 1, some 3, some 10⟩,
   ⟨4, some 1, some 2, some 1, some 4, some 10⟩,
   ⟨5, some 1, some 2, some 1, some 5, some 10⟩,
   ⟨6, some 1, some 2, some 1, some 6, some 10⟩,
   ⟨7, some 1, some 2, some 1, some 7, some 10⟩,
   ⟨8, some 1, some 2, some 1, some 8, some 10⟩,
   ⟨9, some 1, some 2, some 1, some 9, some 10⟩,
   ⟨10, some 1, some 2, some 1, some 10, some 10⟩]

/-- The per-pair contribution of a statistic `f` after the date join
and the NaN drop. -/
def vcell {M : Type} [AddCommMonoid M] (f : ℚ → ℚ → M) (a b : CorrRow) : M :=
  match a.close, b.close with
  | some x, some y => f x y
  | _, _ => 0

/-! ### Library lemmas about the embedded operations -/

theorem mem_insertByKey {α : Type} (key : α → ℤ) (a x : α) :
    ∀ l : List α, x ∈ insertByKey key a l ↔ x = a ∨ x ∈ l := by
  intro l
  induction l with
  | nil => simp [insertByKey]
  | cons b l ih =>
    by_cases h : key a ≤ key b
    · simp [insertByKey, h]
    · simp [insertByKey, h, ih]
      tauto

theorem keySorted_insertByKey {α : Type} (key : α → ℤ) (a : α) :
    ∀ l : List α, KeySorted key l → KeySorted key (insertByKey key a l) := by
  intro l
  induction l with
  | nil => intro _; simp [insertByKey, KeySorted]
  | cons b l ih =>
    intro hs
    rcases hs with _ | ⟨hb, hl⟩
    by_cases h : key a ≤ key b
    · rw [insertByKey, if_pos h]
      refine List.Pairwise.cons ?_ (List.Pairwise.cons hb hl)
      intro x hx
      rcases List.mem_cons.mp hx with hx | hx
      · simpa [hx] using h
      · exact le_trans h (hb x hx)
    · rw [insertByKey, if_neg h]
      refine List.Pairwise.cons ?_ (ih hl)
      intro x hx
      rcases (mem_insertByKey key a x l).mp hx with hx | hx
      · exact hx ▸ le_of_not_le h
      · exact hb x hx

theorem keySorted_sortByKey {α : Type} (key : α → ℤ) :
    ∀ l : List α, KeySorted key (sortByKey key l) := by
  intro l
  induction l with
  | nil => simp [sortByKey, KeySorted]
  | cons a l ih => exact keySorted_insertByKey key a _ ih

theorem insertByKey_perm {α : Type} (key : α → ℤ) (a : α) :
    ∀ l : List α, List.Perm (insertByKey key a l) (a :: l) := by
  intro l
  induction l with
  | nil => simp [insertByKey]
  | cons b l ih =>
    by_cases h : key a ≤ key b
    · simp [insertByKey, h]
    · simp only [insertByKey, h, if_false]
      exact List.Perm.trans (List.Perm.cons b ih) (List.Perm.swap a b l)

theorem sortByKey_perm {α : Type} (key : α → ℤ) :
    ∀ l : List α, List.Perm (sortByKey key l) l := by
  intro l
  induction l with
  | nil => simp [sortByKey]
  | cons a l ih =>
    exact List.Perm.trans (insertByKey_perm key a _) (List.Perm.cons a ih)

theorem length_sortByKey {α : Type} (key : α → ℤ) (l : List α) :
    (sortByKey key l).length = l.length :=
  (sortByKey_perm key l).length_eq

theorem sortByKey_eq_self {α : Type} (key : α → ℤ) :
    ∀ l : List α, KeySorted key l → sortByKey key l = l := by
  intro l
  induction l with
  | nil => intro _; rfl
  | cons a l ih =>
    intro hs
    rcases hs with _ | ⟨ha, hl⟩
    rw [sortByKey, ih hl]
    cases l with
    | nil => rfl
    | cons b l => simp [insertByKey, ha b (by simp)]

theorem getD_calculate_daily_return (df : List FBar) (i : ℕ) (h : i < df.length) :
    (calculate_daily_return df).getD i .nan =
      daily_return_of (df.getD i ⟨.nan, .nan⟩).open_ (df.getD i ⟨.nan, .nan⟩).close := by
  induction df generalizing i with
  | nil => simp at h
  | cons r l ih =>
    cases i with
    | zero => rfl
    | succ n =>
      have := ih n (Nat.lt_of_succ_lt_succ h)
      simpa [calculate_daily_return, List.getD] using this

theorem daily_return_of_self (x : PyFloat) : daily_return_of x x = .val 0 := by
  cases x with
  | nan => rfl
  | inf => rfl
  | ninf => rfl
  | val a =>
    by_cases h : a = 0
    · simp [daily_return_of, PyFloat.sub, PyFloat.div, PyFloat.fillna0, h]
    · simp [daily_return_of, PyFloat.sub, PyFloat.div, PyFloat.fillna0, h, sub_self]

theorem daily_return_of_missing_open (c : PyFloat) : daily_return_of .nan c = .val 0 := by
  cases c <;> rfl

theorem daily_return_of_zero_open (q : ℚ) (h : q ≠ 0) :
    daily_return_of (.val 0) (.val q) = if 0 < q then .inf else .ninf := by
  by_cases h2 : 0 < q <;>
    simp [daily_return_of, PyFloat.sub, PyFloat.div, PyFloat.fillna0, h, h2, sub_zero]

/-- C6 (amended): the enricher computes `daily_return` as
`(close - open) / open` followed by `fillna(0)`; it is exactly 0 when
`open = close` and when `open` is missing (NaN); but when `open` is 0
and `close` is a nonzero finite value, the division produces a signed
infinity, which `fillna(0)` does not replace — the stored value is
+inf or -inf, not 0. -/
theorem C6_daily_return (df : List FBar) (i : ℕ) (h : i < df.length) :
    ((df.getD i ⟨.nan, .nan⟩).open_ = (df.getD i ⟨.nan, .nan⟩).close →
      (calculate_daily_return df).getD i .nan = .val 0) ∧
    ((df.getD i ⟨.nan, .nan⟩).open_ = .nan →
      (calculate_daily_return df).getD i .nan = .val 0) ∧
    (∀ q : ℚ, q ≠ 0 → (df.getD i ⟨.nan, .nan⟩).open_ = .val 0 →
      (df.getD i ⟨.nan, .nan⟩).close = .val q →
      (calculate_daily_return df).getD i .nan = (if 0 < q then .inf else .ninf) ∧
        (calculate_daily_return df).getD i .nan ≠ .val 0) := by
  rw [getD_calculate_daily_return df i h]
  refine ⟨?_, ?_, ?_⟩
  · intro he; rw [he]; exact daily_return_of_self _
  · intro he; rw [he]; exact daily_return_of_missing_open _
  · intro q hq ho hc
    rw [ho, hc, daily_return_of_zero_open q hq]
    constructor
    · rfl
    · by_cases h2 : 0 < q <;> simp [h2]

theorem C6_daily_return_witness :
    (calculate_daily_return [⟨.val 3, .val 3⟩]).getD 0 .nan = .val 0 ∧
    (calculate_daily_return [⟨.nan, .val 5⟩]).getD 0 .nan = .val 0 ∧
    (calculate_daily_return [⟨.val 0, .val 5⟩]).getD 0 .nan ≠ .val 0 := by
  refine ⟨(C6_daily_return [⟨.val 3, .val 3⟩] 0 (by decide)).1 rfl,
          (C6_daily_return [⟨.nan, .val 5⟩] 0 (by decide)).2.1 rfl,
          ((C6_daily_return [⟨.val 0, .val 5⟩] 0 (by decide)).2.2 5 (by norm_num) rfl rfl).2⟩

/-- C6 (counterexample to the claim as stated): for the bar with
`open = 0` and `close = 5`, `calculate_daily_return` yields +infinity,
not 0 as the claim asserts for a zero `open`. -/
theorem C6_daily_return_counterexample :
    calculate_daily_return [⟨.val 0, .val 5⟩] = [.inf] ∧ PyFloat.inf ≠ .val 0 := by
  constructor
  · norm_num [calculate_daily_return, daily_return_of, PyFloat.sub, PyFloat.div, PyFloat.fillna0]
  · simp

theorem getD_zipWith {α β γ : Type} (f : α → β → γ) (d1 : α) (d2 : β) (d3 : γ) :
    ∀ (l : List α) (m : List β) (i : ℕ), i < l.length → i < m.length →
      (List.zipWith f l m).getD i d3 = f (l.getD i d1) (m.getD i d2) := by
  intro l
  induction l with
  | nil => intro m i h; simp at h
  | cons a l ih =>
    intro m i h1 h2
    cases m with
    | nil => simp at h2
    | cons b m =>
      cases i with
      | zero => rfl
      | succ n =>
        have := ih m n (Nat.lt_of_succ_lt_succ h1) (Nat.lt_of_succ_lt_succ h2)
        simpa [List.getD] using this

theorem length_rollingMean (w : ℕ) (xs : List ℚ) :
    (rollingMean w xs).length = xs.length := by
  simp [rollingMean]

theorem getD_rollingMean (w : ℕ) (xs : List ℚ) (i : ℕ) (h : i < xs.length) :
    (rollingMean w xs).getD i 0 =
      ((xs.take (i + 1)).drop (i + 1 - w)).sum /
        ((((xs.take (i + 1)).drop (i + 1 - w)).length : ℕ) : ℚ) := by
  rw [rollingMean, List.getD_eq_getElem?_getD, List.getElem?_map, List.getElem?_range h]
  rfl

/-- C9: the 7-day moving average column uses an expanding window at the
head of the series: at every index `i < 6` it is the mean of the closes
of bars 0 through `i`, and at the first bar it equals that bar's
close. -/
theorem C9_moving_average (df : List DRow) (i : ℕ) (hi : i < df.length) (h6 : i < 6) :
    ((calculate_moving_average 7 df).getD i dMRow).ma_7 =
      ((df.take (i + 1)).map (fun r => r.close)).sum / ((i + 1 : ℕ) : ℚ) ∧
    (0 < df.length →
      ((calculate_moving_average 7 df).getD 0 dMRow).ma_7 = (df.getD 0 dDRow).close) := by
  have key : ∀ j : ℕ, j < df.length → j < 7 →
      ((calculate_moving_average 7 df).getD j dMRow).ma_7 =
        ((df.take (j + 1)).map (fun r => r.close)).sum / ((j + 1 : ℕ) : ℚ) := by
    intro j hj hj7
    rw [calculate_moving_average,
      getD_zipWith _ dDRow 0 dMRow df (rollingMean 7 (df.map fun r => r.close)) j hj
        (by rw [length_rollingMean, List.length_map]; exact hj)]
    have hwin : j + 1 - 7 = 0 := Nat.sub_eq_zero_of_le hj7
    rw [getD_rollingMean 7 (df.map fun r => r.close) j (by simpa using hj)]
    simp [hwin, ← List.map_take, List.length_take, min_eq_left (Nat.succ_le_of_lt hj)]
  refine ⟨key i hi (lt_trans h6 (by norm_num)), ?_⟩
  intro h0
  rw [key 0 h0 (by norm_num)]
  cases df with
  | nil => simp at h0
  | cons r l => simp [List.getD]

theorem C9_moving_average_witness :
    (1 < ([⟨1, none, none, none, 3, none, 0⟩, ⟨2, none, none, none, 5, none, 0⟩] : List DRow).length ∧ (1:ℕ) < 6) ∧
    ((calculate_moving_average 7
        [⟨1, none, none, none, 3, none, 0⟩, ⟨2, none, none, none, 5, none, 0⟩]).getD 1 dMRow).ma_7 =
      ((([⟨1, none, none, none, 3, none, 0⟩, ⟨2, none, none, none, 5, none, 0⟩] : List DRow).take 2).map
        (fun r => r.close)).sum / ((2 : ℕ) : ℚ) :=
  ⟨⟨by decide, by decide⟩,
    (C9_moving_average [⟨1, none, none, none, 3, none, 0⟩, ⟨2, none, none, none, 5, none, 0⟩]
      1 (by decide) (by decide)).1⟩

theorem total_return_pct_dfDoubling : total_return_pct dfDoubling = 100 := by
  norm_num [total_return_pct, dfDoubling, round2, roundHalfEven]

/-- C5 (amended): `better_performer` is the ticker with the strictly
higher `total_return_pct`; when the two values are equal it is the
SECOND ticker argument (the route's strict `>` sends ties to the
`else` branch), not the first as claimed. -/
theorem C5_better_performer (s1 s2 : String) (df1 df2 : List RespRow) :
    (total_return_pct df2 < total_return_pct df1 →
      better_performer s1 s2 df1 df2 = s1) ∧
    (total_return_pct df1 ≤ total_return_pct df2 →
      better_performer s1 s2 df1 df2 = s2) := by
  constructor
  · intro h; simp [better_performer, h]
  · intro h; rw [better_performer, if_neg (not_lt.mpr h)]

theorem C5_better_performer_witness :
    better_performer "TCS" "INFY" dfDoubling [] = "TCS" ∧
    better_performer "TCS" "INFY" dfFlat dfFlat = "INFY" :=
  ⟨(C5_better_performer "TCS" "INFY" dfDoubling []).1
      (by rw [total_return_pct_dfDoubling]; norm_num [total_return_pct]),
   (C5_better_performer "TCS" "INFY" dfFlat dfFlat).2 le_rfl⟩

/-- C5 (counterexample to the claim as stated): two frames with equal
`total_return_pct` — the route reports the SECOND ticker as
`better_performer`, not the first as the claim asserts. -/
theorem C5_better_performer_counterexample :
    better_performer "TCS" "INFY" dfFlat dfFlat = "INFY" ∧ "INFY" ≠ "TCS" := by
  constructor
  · rw [better_performer, if_neg (lt_irrefl _)]
  · decide

theorem foldl_max_acc_le : ∀ (xs : List ℚ) (acc : ℚ), acc ≤ xs.foldl max acc := by
  intro xs
  induction xs with
  | nil => intro acc; exact le_refl acc
  | cons x xs ih => intro acc; exact le_trans (le_max_left acc x) (ih (max acc x))

theorem foldl_max_le_of_mem :
    ∀ (xs : List ℚ) (acc x : ℚ), x ∈ xs → x ≤ xs.foldl max acc := by
  intro xs
  induction xs with
  | nil => intro acc x h; simp at h
  | cons a xs ih =>
    intro acc x h
    rw [List.foldl_cons]
    rcases List.mem_cons.mp h with h | h
    · subst h
      exact le_trans (le_max_right acc x) (foldl_max_acc_le xs (max acc x))
    · exact ih (max acc a) x h

theorem foldl_max_mem :
    ∀ (xs : List ℚ) (acc : ℚ), xs.foldl max acc = acc ∨ xs.foldl max acc ∈ xs := by
  intro xs
  induction xs with
  | nil => intro acc; left; rfl
  | cons a xs ih =>
    intro acc
    rcases ih (max acc a) with h | h
    · rcases max_choice acc a with hm | hm
      · left; rw [List.foldl_cons, h, hm]
      · right; rw [List.foldl_cons, h, hm]; exact List.mem_cons_self a xs
    · right; exact List.mem_cons_of_mem a h

theorem le_listMax : ∀ (l : List ℚ) (x : ℚ), x ∈ l → x ≤ listMax l := by
  intro l x h
  cases l with
  | nil => simp at h
  | cons a l =>
    rcases List.mem_cons.mp h with h | h
    · exact h ▸ foldl_max_acc_le l a
    · exact foldl_max_le_of_mem l a x h

theorem listMax_mem : ∀ (l : List ℚ), l ≠ [] → listMax l ∈ l := by
  intro l h
  cases l with
  | nil => exact absurd rfl h
  | cons a l =>
    rcases foldl_max_mem l a with h2 | h2
    · rw [listMax, h2]; exact List.mem_cons_self a l
    · rw [listMax]; exact List.mem_cons_of_mem a h2

theorem foldl_min_acc_le : ∀ (xs : List ℚ) (acc : ℚ), xs.foldl min acc ≤ acc := by
  intro xs
  induction xs with
  | nil => intro acc; exact le_refl acc
  | cons x xs ih => intro acc; exact le_trans (ih (min acc x)) (min_le_left acc x)

theorem foldl_min_le_of_mem :
    ∀ (xs : List ℚ) (acc x : ℚ), x ∈ xs → xs.foldl min acc ≤ x := by
  intro xs
  induction xs with
  | nil => intro acc x h; simp at h
  | cons a xs ih =>
    intro acc x h
    rw [List.foldl_cons]
    rcases List.mem_cons.mp h with h | h
    · subst h
      exact le_trans (foldl_min_acc_le xs (min acc x)) (min_le_right acc x)
    · exact ih (min acc a) x h

theorem foldl_min_mem :
    ∀ (xs : List ℚ) (acc : ℚ), xs.foldl min acc = acc ∨ xs.foldl min acc ∈ xs := by
  intro xs
  induction xs with
  | nil => intro acc; left; rfl
  | cons a xs ih =>
    intro acc
    rcases ih (min acc a) with h | h
    · rcases min_choice acc a with hm | hm
      · left; rw [List.foldl_cons, h, hm]
      · right; rw [List.foldl_cons, h, hm]; exact List.mem_cons_self a xs
    · right; exact List.mem_cons_of_mem a h

theorem listMin_le : ∀ (l : List ℚ) (x : ℚ), x ∈ l → listMin l ≤ x := by
  intro l x h
  cases l with
  | nil => simp at h
  | cons a l =>
    rcases List.mem_cons.mp h with h | h
    · exact h ▸ foldl_min_acc_le l a
    · exact foldl_min_le_of_mem l a x h

theorem listMin_mem : ∀ (l : List ℚ), l ≠ [] → listMin l ∈ l := by
  intro l h
  cases l with
  | nil => exact absurd rfl h
  | cons a l =>
    rcases foldl_min_mem l a with h2 | h2
    · rw [listMin, h2]; exact List.mem_cons_self a l
    · rw [listMin]; exact List.mem_cons_of_mem a h2

/-- C4 (amended): the `/summary/{symbol}` endpoint computes `high_52w`
as the maximum of the CLOSE column and `low_52w` as the minimum of the
CLOSE column over ALL stored bars for the symbol — neither the `high`
and `low` fields nor a trailing-252-bar window are involved on this
endpoint (the trailing-252 high/low computation exists in
`calculate_52week_high_low` and is used by the compare endpoint). -/
theorem C4_summary_high_low (store : List SRow) (sym : String)
    (h : (sortByKey (fun r => r.date) (store.filter (fun r => r.symbol == sym))).isEmpty = false) :
    ∃ s : SummaryStats, get_stock_summary store sym = some s ∧
      (∀ r ∈ sortByKey (fun r => r.date) (store.filter (fun r => r.symbol == sym)),
        r.close ≤ s.high_52w ∧ s.low_52w ≤ r.close) ∧
      s.high_52w ∈ (sortByKey (fun r => r.date) (store.filter (fun r => r.symbol == sym))).map
        (fun r => r.close) ∧
      s.low_52w ∈ (sortByKey (fun r => r.date) (store.filter (fun r => r.symbol == sym))).map
        (fun r => r.close) := by
  set records := sortByKey (fun r => r.date) (store.filter (fun r => r.symbol == sym)) with hr
  have hne : records ≠ [] := by
    intro he; rw [he] at h; simp [List.isEmpty] at h
  refine ⟨⟨listMax (records.map (fun r => r.close)), listMin (records.map (fun r => r.close)),
    (records.map (fun r => r.close)).sum / (((records.map (fun r => r.close)).length : ℕ) : ℚ),
    (records.map (fun r => r.close)).getLastD 0⟩, ?_, ?_, ?_, ?_⟩
  · rw [get_stock_summary, ← hr, h]; rfl
  · intro r hrm
    constructor
    · exact le_listMax _ _ (List.mem_map_of_mem (fun r => r.close) hrm)
    · exact listMin_le _ _ (List.mem_map_of_mem (fun r => r.close) hrm)
  · exact listMax_mem _ (by simpa using hne)
  · exact listMin_mem _ (by simpa using hne)

theorem C4_summary_high_low_witness :
    (sortByKey (fun r => r.date)
      (([⟨"TCS", 1, none, some 10, some 1, 5, none, none, none, none⟩] :
        List SRow).filter (fun r => r.symbol == "TCS"))).isEmpty = false ∧
    ∃ s : SummaryStats,
      get_stock_summary [⟨"TCS", 1, none, some 10, some 1, 5, none, none, none, none⟩] "TCS" =
        some s ∧
      (∀ r ∈ sortByKey (fun r => r.date)
          (([⟨"TCS", 1, none, some 10, some 1, 5, none, none, none, none⟩] :
            List SRow).filter (fun r => r.symbol == "TCS")),
        r.close ≤ s.high_52w ∧ s.low_52w ≤ r.close) ∧
      s.high_52w ∈ (sortByKey (fun r => r.date)
          (([⟨"TCS", 1, none, some 10, some 1, 5, none, none, none, none⟩] :
            List SRow).filter (fun r => r.symbol == "TCS"))).map (fun r => r.close) ∧
      s.low_52w ∈ (sortByKey (fun r => r.date)
          (([⟨"TCS", 1, none, some 10, some 1, 5, none, none, none, none⟩] :
            List SRow).filter (fun r => r.symbol == "TCS"))).map (fun r => r.close) :=
  ⟨rfl, C4_summary_high_low [⟨"TCS", 1, none, some 10, some 1, 5, none, none, none, none⟩]
    "TCS" rfl⟩

/-- C4 (counterexample to the claim as stated): one stored bar with
`high = 10`, `low = 1`, `close = 5`.  The summary endpoint reports
`high_52w = 5` and `low_52w = 5` (close over all rows), while the
trailing-252 computation over the `high`/`low` fields that the claim
describes gives 10 and 1. -/
theorem C4_summary_high_low_counterexample :
    (get_stock_summary [⟨"TCS", 1, none, some 10, some 1, 5, none, none, none, none⟩]
        "TCS").map (fun s => (s.high_52w, s.low_52w)) = some (5, 5) ∧
    calculate_52week_high_low [⟨1, none, some 10, some 1, 5, none, none, none, none⟩] =
      ⟨10, 1⟩ ∧
    (5 : ℚ) ≠ 10 ∧ (5 : ℚ) ≠ 1 := by
  refine ⟨rfl, rfl, by decide, by decide⟩

/-- C1: for a known ticker, when the windowed read holds at least
`days` rows the route serves exactly those stored rows sorted
ascending, does not call the remote fetcher and leaves the store
untouched; when it holds fewer rows (e.g. 29 for `days = 30`), the
remote fetcher is invoked. -/
theorem C1_cache_sufficiency (store : List SRow) (sym : String) (days : ℕ) (today : ℤ)
    (fetched : Option (List RawRow)) (pf : Bool)
    (hknown : availableCompanies.contains sym = true)
    (hdays : 1 ≤ days) :
    (days ≤ (windowRead store sym (today - (days : ℤ))).length →
      get_stock_data store sym days today fetched pf =
        ⟨.ok (sortByKey (fun r => r.date)
          ((windowRead store sym (today - (days : ℤ))).map respOfS)), false, store⟩) ∧
    ((windowRead store sym (today - (days : ℤ))).length < days →
      (get_stock_data store sym days today fetched pf).fetchCalled = true) := by
  constructor
  · intro hsuff
    have hne : (windowRead store sym (today - (days : ℤ))).isEmpty = false := by
      cases hwr : windowRead store sym (today - (days : ℤ)) with
      | nil => rw [hwr] at hsuff; simp at hsuff; omega
      | cons a l => rfl
    rw [get_stock_data]
    simp only [hknown, Bool.not_true, Bool.false_eq_true, if_false, hne, Bool.not_false,
      Bool.true_and, decide_eq_true_eq, if_pos hsuff]
  · intro hlt
    have hcond : (!(windowRead store sym (today - (days : ℤ))).isEmpty &&
        decide (days ≤ (windowRead store sym (today - (days : ℤ))).length)) = false := by
      rw [decide_eq_false (not_le.mpr hlt), Bool.and_false]
    rw [get_stock_data]
    simp only [hknown, Bool.not_true, Bool.false_eq_true, if_false, hcond]
    cases fetched with
    | none => rfl
    | some raw =>
      by_cases hre : raw.isEmpty
      · simp only [hre, if_true]
      · simp only [hre, Bool.false_eq_true, if_false]
        split <;> first | rfl | (split <;> rfl)

theorem get_stock_data_unknown_eq (store : List SRow) (sym : String) (days : ℕ) (today : ℤ)
    (fetched : Option (List RawRow)) (pf : Bool)
    (h : availableCompanies.contains sym = false) :
    get_stock_data store sym days today fetched pf = ⟨.error .badSymbol, false, store⟩ := by
  rw [get_stock_data]
  simp only [h, Bool.not_false, if_true]

theorem get_stock_data_cache_eq (store : List SRow) (sym : String) (days : ℕ) (today : ℤ)
    (fetched : Option (List RawRow)) (pf : Bool)
    (hknown : availableCompanies.contains sym = true)
    (hc : (!(windowRead store sym (today - (days : ℤ))).isEmpty &&
      decide (days ≤ (windowRead store sym (today - (days : ℤ))).length)) = true) :
    get_stock_data store sym days today fetched pf =
      ⟨.ok (sortByKey (fun r => r.date)
        ((windowRead store sym (today - (days : ℤ))).map respOfS)), false, store⟩ := by
  rw [get_stock_data]
  simp only [hknown, Bool.not_true, Bool.false_eq_true, if_false, hc, if_true]

theorem get_stock_data_nofetch_eq (store : List SRow) (sym : String) (days : ℕ) (today : ℤ)
    (pf : Bool)
    (hknown : availableCompanies.contains sym = true)
    (hc : (!(windowRead store sym (today - (days : ℤ))).isEmpty &&
      decide (days ≤ (windowRead store sym (today - (days : ℤ))).length)) = false) :
    get_stock_data store sym days today none pf = ⟨.error .notFound, true, store⟩ := by
  rw [get_stock_data]
  simp only [hknown, Bool.not_true, Bool.false_eq_true, if_false, hc]

theorem get_stock_data_emptyraw_eq (store : List SRow) (sym : String) (days : ℕ) (today : ℤ)
    (raw : List RawRow) (pf : Bool)
    (hknown : availableCompanies.contains sym = true)
    (hc : (!(windowRead store sym (today - (days : ℤ))).isEmpty &&
      decide (days ≤ (windowRead store sym (today - (days : ℤ))).length)) = false)
    (hre : raw.isEmpty = true) :
    get_stock_data store sym days today (some raw) pf = ⟨.error .notFound, true, store⟩ := by
  rw [get_stock_data]
  simp only [hknown, Bool.not_true, Bool.false_eq_true, if_false, hc, hre, if_true]

theorem get_stock_data_fetch_eq (store : List SRow) (sym : String) (days : ℕ) (today : ℤ)
    (raw : List RawRow) (pf : Bool)
    (hknown : availableCompanies.contains sym = true)
    (hc : (!(windowRead store sym (today - (days : ℤ))).isEmpty &&
      decide (days ≤ (windowRead store sym (today - (days : ℤ))).length)) = false)
    (hre : raw.isEmpty = false) :
    get_stock_data store sym days today (some raw) pf =
      (if (newRecsOf store sym (today - (days : ℤ)) (trimmedFrame raw days)).isEmpty then
        ⟨.ok ((trimmedFrame raw days).map respOfP), true, store⟩
      else if pf then ⟨.error .serverError, true, store⟩
      else ⟨.ok ((trimmedFrame raw days).map respOfP), true,
        store_merge store sym (today - (days : ℤ)) (trimmedFrame raw days)⟩) := by
  rw [get_stock_data]
  simp only [hknown, Bool.not_true, Bool.false_eq_true, if_false, hc, hre]

theorem C1_cache_sufficiency_witness :
    (availableCompanies.contains "TCS" = true ∧ 1 ≤ 1 ∧
      1 ≤ (windowRead [⟨"TCS", 10, none, none, none, 5, none, none, none, none⟩] "TCS"
        ((10 : ℤ) - ((1 : ℕ) : ℤ))).length) ∧
    get_stock_data [⟨"TCS", 10, none, none, none, 5, none, none, none, none⟩] "TCS" 1 10
        none false =
      ⟨.ok (sortByKey (fun r => r.date)
        ((windowRead [⟨"TCS", 10, none, none, none, 5, none, none, none, none⟩] "TCS"
          ((10 : ℤ) - ((1 : ℕ) : ℤ))).map respOfS)), false,
        [⟨"TCS", 10, none, none, none, 5, none, none, none, none⟩]⟩ ∧
    (get_stock_data [] "TCS" 1 10 none false).fetchCalled = true :=
  ⟨⟨rfl, le_refl 1, by decide⟩,
   (C1_cache_sufficiency [⟨"TCS", 10, none, none, none, 5, none, none, none, none⟩]
      "TCS" 1 10 none false rfl (le_refl 1)).1 (by decide),
   (C1_cache_sufficiency [] "TCS" 1 10 none false rfl (le_refl 1)).2 (by decide)⟩

/-- C7 (amended): every successful response is ordered ascending by
date; on the fetch path its length is at most `requestedDays`; but on
the cache-hit path its length equals the number of stored rows in the
window, which is at least `requestedDays` and can exceed it. -/
theorem C7_response_shape (store : List SRow) (sym : String) (days : ℕ) (today : ℤ)
    (fetched : Option (List RawRow)) (pf : Bool) (out : List RespRow)
    (hok : (get_stock_data store sym days today fetched pf).response = Except.ok out) :
    KeySorted (fun r => r.date) out ∧
    ((get_stock_data store sym days today fetched pf).fetchCalled = true →
      out.length ≤ days) ∧
    ((get_stock_data store sym days today fetched pf).fetchCalled = false →
      out.length = (windowRead store sym (today - (days : ℤ))).length) := by
  by_cases hknown : availableCompanies.contains sym = true
  case neg =>
    have h0 : availableCompanies.contains sym = false := by
      revert hknown; cases availableCompanies.contains sym <;> simp
    rw [get_stock_data_unknown_eq store sym days today fetched pf h0] at hok
    simp at hok
  case pos =>
    by_cases hc : (!(windowRead store sym (today - (days : ℤ))).isEmpty &&
        decide (days ≤ (windowRead store sym (today - (days : ℤ))).length)) = true
    · have hres := get_stock_data_cache_eq store sym days today fetched pf hknown hc
      rw [hres] at hok
      have hout : out = sortByKey (fun r => r.date)
          ((windowRead store sym (today - (days : ℤ))).map respOfS) := by
        have := hok
        simp only [Except.ok.injEq] at this
        exact this.symm
      subst hout
      refine ⟨keySorted_sortByKey _ _, ?_, ?_⟩
      · intro hfc; rw [hres] at hfc; simp at hfc
      · intro _; rw [length_sortByKey, List.length_map]
    · have hc0 : (!(windowRead store sym (today - (days : ℤ))).isEmpty &&
          decide (days ≤ (windowRead store sym (today - (days : ℤ))).length)) = false := by
        revert hc; cases (!(windowRead store sym (today - (days : ℤ))).isEmpty &&
          decide (days ≤ (windowRead store sym (today - (days : ℤ))).length)) <;> simp
      cases fetched with
      | none =>
        rw [get_stock_data_nofetch_eq store sym days today pf hknown hc0] at hok
        simp at hok
      | some raw =>
        by_cases hre : raw.isEmpty = true
        · rw [get_stock_data_emptyraw_eq store sym days today raw pf hknown hc0 hre] at hok
          simp at hok
        · have hre0 : raw.isEmpty = false := by
            revert hre; cases raw.isEmpty <;> simp
          have hres := get_stock_data_fetch_eq store sym days today raw pf hknown hc0 hre0
          have hsorted : KeySorted (fun p => p.date) (trimmedFrame raw days) := by
            rw [trimmedFrame]
            split
            · exact List.Pairwise.sublist (List.drop_sublist _ _) (keySorted_sortByKey _ _)
            · exact keySorted_sortByKey _ _
          have hdfl : (trimmedFrame raw days).length ≤ days := by
            rw [trimmedFrame]
            split
            · rename_i hlt
              rw [List.length_drop]
              have := of_decide_eq_true hlt
              omega
            · rename_i hge
              have : ¬ days < (sortByKey (fun p => p.date) (process_data raw)).length := by
                intro hcon
                exact hge (decide_eq_true hcon)
              omega
          have hfc : (get_stock_data store sym days today (some raw) pf).fetchCalled = true := by
            rw [hres]
            split
            · rfl
            · split <;> rfl
          have hout : out = (trimmedFrame raw days).map respOfP := by
            rw [hres] at hok
            split at hok
            · simp only [Except.ok.injEq] at hok
              exact hok.symm
            · split at hok
              · simp at hok
              · simp only [Except.ok.injEq] at hok
                exact hok.symm
          subst hout
          refine ⟨?_, ?_, ?_⟩
          · simpa [KeySorted, List.pairwise_map, respOfP] using hsorted
          · intro _; rw [List.length_map]; exact hdfl
          · intro hfc0; rw [hfc] at hfc0; simp at hfc0

theorem C7_response_shape_witness :
    (get_stock_data [⟨"TCS", 10, none, none, none, 5, none, none, none, none⟩] "TCS" 1 10
        none false).response =
      Except.ok (sortByKey (fun r => r.date)
        ((windowRead [⟨"TCS", 10, none, none, none, 5, none, none, none, none⟩] "TCS"
          ((10 : ℤ) - ((1 : ℕ) : ℤ))).map respOfS)) ∧
    KeySorted (fun r => (r : RespRow).date) (sortByKey (fun r => r.date)
        ((windowRead [⟨"TCS", 10, none, none, none, 5, none, none, none, none⟩] "TCS"
          ((10 : ℤ) - ((1 : ℕ) : ℤ))).map respOfS)) := by
  refine ⟨rfl, ?_⟩
  exact (C7_response_shape [⟨"TCS", 10, none, none, none, 5, none, none, none, none⟩]
    "TCS" 1 10 none false _ rfl).1

/-- C7 (counterexample to the claim as stated): with two stored rows
dated 9 and 10 inside the window of a `days = 1` request at `today =
10`, the cache-hit response has 2 rows — more than `requestedDays`. -/
theorem C7_response_shape_counterexample :
    ((get_stock_data
      [⟨"TCS", 9, none, none, none, 4, none, none, none, none⟩,
       ⟨"TCS", 10, none, none, none, 5, none, none, none, none⟩] "TCS" 1 10
      none false).response.map (fun l => l.length)) = Except.ok 2 ∧ ¬ (2 ≤ 1) := by
  constructor
  · rfl
  · decide

/-- C3 (amended): on the fetch path, only a duplicate-key
`IntegrityError` during the persistence write is swallowed — the
freshly fetched series is still returned and the store rolls back; any
other persistence failure is re-raised and surfaces to the caller as a
500 server error, so the write failure is NOT universally swallowed. -/
theorem C3_persistence_failure (store : List SRow) (sym : String) (days : ℕ) (today : ℤ)
    (raw : List RawRow)
    (hknown : availableCompanies.contains sym = true)
    (hc : (!(windowRead store sym (today - (days : ℤ))).isEmpty &&
      decide (days ≤ (windowRead store sym (today - (days : ℤ))).length)) = false)
    (hre : raw.isEmpty = false) :
    ((get_stock_data store sym days today (some raw) false).response =
      Except.ok ((trimmedFrame raw days).map respOfP)) ∧
    ((get_stock_data store sym days today (some raw) false).storeAfter =
      store_merge store sym (today - (days : ℤ)) (trimmedFrame raw days)) ∧
    (insertAdmissible store
        (newRecsOf store sym (today - (days : ℤ)) (trimmedFrame raw days)) = false →
      (get_stock_data store sym days today (some raw) false).storeAfter = store) ∧
    ((newRecsOf store sym (today - (days : ℤ)) (trimmedFrame raw days)).isEmpty = false →
      (get_stock_data store sym days today (some raw) true).response =
        Except.error .serverError) := by
  have hres0 := get_stock_data_fetch_eq store sym days today raw false hknown hc hre
  have hres1 := get_stock_data_fetch_eq store sym days today raw true hknown hc hre
  refine ⟨?_, ?_, ?_, ?_⟩
  · rw [hres0]
    split
    · rfl
    · simp
  · rw [hres0]
    by_cases hnr : (newRecsOf store sym (today - (days : ℤ)) (trimmedFrame raw days)).isEmpty = true
    · rw [store_merge]
      simp only [hnr, if_true]
    · have hnr0 : (newRecsOf store sym (today - (days : ℤ)) (trimmedFrame raw days)).isEmpty
          = false := by
        revert hnr
        cases (newRecsOf store sym (today - (days : ℤ)) (trimmedFrame raw days)).isEmpty <;> simp
      simp only [hnr0, Bool.false_eq_true, if_false]
  · intro hbad
    rw [hres0]
    by_cases hnr : (newRecsOf store sym (today - (days : ℤ)) (trimmedFrame raw days)).isEmpty = true
    · simp only [hnr, if_true]
    · have hnr0 : (newRecsOf store sym (today - (days : ℤ)) (trimmedFrame raw days)).isEmpty
          = false := by
        revert hnr
        cases (newRecsOf store sym (today - (days : ℤ)) (trimmedFrame raw days)).isEmpty <;> simp
      simp only [hnr0, Bool.false_eq_true, if_false]
      rw [store_merge]
      simp only [hnr0, Bool.false_eq_true, if_false, hbad]
  · intro hnr0
    rw [hres1]
    simp only [hnr0, Bool.false_eq_true, if_false, if_true]

theorem C3_persistence_failure_witness :
    (get_stock_data [⟨"TCS", 5, none, none, none, 7, none, none, none, none⟩] "TCS" 1 10
      (some [⟨5, some 4, some 6, some 3, some 5, some 100⟩]) false).storeAfter =
        [⟨"TCS", 5, none, none, none, 7, none, none, none, none⟩] ∧
    (get_stock_data [⟨"TCS", 5, none, none, none, 7, none, none, none, none⟩] "TCS" 1 10
      (some [⟨5, some 4, some 6, some 3, some 5, some 100⟩]) true).response =
        Except.error .serverError :=
  ⟨(C3_persistence_failure [⟨"TCS", 5, none, none, none, 7, none, none, none, none⟩]
      "TCS" 1 10 [⟨5, some 4, some 6, some 3, some 5, some 100⟩] rfl rfl rfl).2.2.1 rfl,
   (C3_persistence_failure [⟨"TCS", 5, none, none, none, 7, none, none, none, none⟩]
      "TCS" 1 10 [⟨5, some 4, some 6, some 3, some 5, some 100⟩] rfl rfl rfl).2.2.2 rfl⟩

/-- C3 (counterexample to the claim as stated): an environmental
persistence failure (anything but `IntegrityError`) during the merge
of one freshly fetched bar is re-raised: the request fails with a 500
server error instead of returning the fetched series. -/
theorem C3_persistence_failure_counterexample :
    (get_stock_data [] "TCS" 1 10
      (some [⟨10, some 4, some 6, some 3, some 5, some 100⟩]) true).response =
      Except.error .serverError ∧
    ((Except.error ErrKind.serverError : Except ErrKind (List RespRow)) ≠
      Except.ok ((trimmedFrame [⟨10, some 4, some 6, some 3, some 5, some 100⟩] 1).map
        respOfP)) := by
  constructor
  · rfl
  · simp

theorem mem_windowRead_of (st : List SRow) (sym : String) (cutoff : ℤ) (w : SRow)
    (h : w ∈ windowRead st sym cutoff) : w ∈ st ∧ w.symbol = sym := by
  rw [windowRead] at h
  have h1 := List.mem_filter.mp h
  refine ⟨h1.1, ?_⟩
  have h2 := h1.2
  simp only [Bool.and_eq_true, beq_iff_eq, decide_eq_true_eq] at h2
  exact h2.1

theorem newRecsOf_mem (st : List SRow) (sym : String) (cutoff : ℤ) (batch : List PRow)
    (r : SRow) (h : r ∈ newRecsOf st sym cutoff batch) :
    ∃ p ∈ batch, r = srowOfP sym p := by
  rw [newRecsOf] at h
  rcases List.mem_map.mp h with ⟨p, hp, he⟩
  exact ⟨p, (List.mem_filter.mp hp).1, he.symm⟩

theorem batch_date_present (store : List SRow) (sym : String) (cutoff : ℤ)
    (batch : List PRow) (p : PRow) (hp : p ∈ batch) :
    ∃ s ∈ store ++ newRecsOf store sym cutoff batch,
      s.symbol = sym ∧ s.date = p.date := by
  by_cases hc : ((windowRead store sym cutoff).map (fun r => r.date)).contains p.date = true
  · have hmem := List.mem_of_elem_eq_true hc
    rcases List.mem_map.mp hmem with ⟨w, hw, hwd⟩
    rcases mem_windowRead_of store sym cutoff w hw with ⟨hws, hwsym⟩
    exact ⟨w, List.mem_append_left _ hws, hwsym, hwd⟩
  · have hc0 : ((windowRead store sym cutoff).map (fun r => r.date)).contains p.date
        = false := by
      revert hc
      cases ((windowRead store sym cutoff).map (fun r => r.date)).contains p.date <;> simp
    refine ⟨srowOfP sym p, List.mem_append_right _ ?_, rfl, rfl⟩
    rw [newRecsOf]
    exact List.mem_map_of_mem (srowOfP sym)
      (List.mem_filter.mpr ⟨hp, by rw [hc0]; rfl⟩)

/-- C8: merging the same enriched batch twice is a no-op the second
time — the store (hence its row count) after two merges equals the
store after one.  A batch date already present inside the window is
skipped by the `existing_dates` check; one already present outside the
window (or any other key collision) aborts the bulk insert with an
`IntegrityError` rollback; either way nothing is inserted. -/
theorem C8_merge_idempotent (store : List SRow) (sym : String) (cutoff : ℤ)
    (batch : List PRow) :
    store_merge (store_merge store sym cutoff batch) sym cutoff batch =
      store_merge store sym cutoff batch ∧
    (store_merge (store_merge store sym cutoff batch) sym cutoff batch).length =
      (store_merge store sym cutoff batch).length := by
  have main : store_merge (store_merge store sym cutoff batch) sym cutoff batch =
      store_merge store sym cutoff batch := by
    by_cases h1 : (newRecsOf store sym cutoff batch).isEmpty = true
    · have hs1 : store_merge store sym cutoff batch = store := by
        rw [store_merge]; simp only [h1, if_true]
      rw [hs1]
      exact hs1
    · have h10 : (newRecsOf store sym cutoff batch).isEmpty = false := by
        revert h1; cases (newRecsOf store sym cutoff batch).isEmpty <;> simp
      by_cases h2 : insertAdmissible store (newRecsOf store sym cutoff batch) = true
      · have hs1 : store_merge store sym cutoff batch =
            store ++ newRecsOf store sym cutoff batch := by
          rw [store_merge]
          simp only [h10, Bool.false_eq_true, if_false, h2, if_true]
        rw [hs1]
        rw [store_merge]
        by_cases h3 : (newRecsOf (store ++ newRecsOf store sym cutoff batch) sym cutoff
            batch).isEmpty = true
        · simp only [h3, if_true]
        · have h30 : (newRecsOf (store ++ newRecsOf store sym cutoff batch) sym cutoff
              batch).isEmpty = false := by
            revert h3
            cases (newRecsOf (store ++ newRecsOf store sym cutoff batch) sym cutoff
              batch).isEmpty <;> simp
          obtain ⟨r, hr⟩ : ∃ r, r ∈ newRecsOf (store ++ newRecsOf store sym cutoff batch)
              sym cutoff batch := by
            cases hl : newRecsOf (store ++ newRecsOf store sym cutoff batch) sym cutoff
                batch with
            | nil =>
              rw [hl] at h30
              simp at h30
            | cons a l => exact ⟨a, List.mem_cons_self a l⟩
          obtain ⟨p, hpb, hrp⟩ := newRecsOf_mem _ _ _ _ r hr
          obtain ⟨s, hs, hsym, hdate⟩ := batch_date_present store sym cutoff batch p hpb
          have hclash : keyClash r s = true := by
            rw [keyClash, hrp]
            simp only [srowOfP, Bool.and_eq_true, beq_iff_eq]
            exact ⟨hsym.symm, hdate.symm⟩
          have hall : ((store ++ newRecsOf store sym cutoff batch).all
              (fun t => !keyClash r t)) = false := by
            cases hA : (store ++ newRecsOf store sym cutoff batch).all
                (fun t => !keyClash r t)
            · rfl
            · exfalso
              have := List.all_eq_true.mp hA s hs
              rw [hclash] at this
              simp at this
          have hia : insertAdmissible (store ++ newRecsOf store sym cutoff batch)
              (newRecsOf (store ++ newRecsOf store sym cutoff batch) sym cutoff batch)
              = false := by
            rw [insertAdmissible]
            have h2all : ((newRecsOf (store ++ newRecsOf store sym cutoff batch) sym
                cutoff batch).all (fun r2 => (store ++ newRecsOf store sym cutoff
                  batch).all (fun t => !keyClash r2 t))) = false := by
              cases hA : ((newRecsOf (store ++ newRecsOf store sym cutoff batch) sym
                  cutoff batch).all (fun r2 => (store ++ newRecsOf store sym cutoff
                    batch).all (fun t => !keyClash r2 t)))
              · rfl
              · exfalso
                have := List.all_eq_true.mp hA r hr
                rw [hall] at this
                simp at this
            rw [h2all, Bool.and_false]
          simp only [h30, Bool.false_eq_true, if_false, hia]
      · have h20 : insertAdmissible store (newRecsOf store sym cutoff batch) = false := by
          revert h2; cases insertAdmissible store (newRecsOf store sym cutoff batch) <;> simp
        have hs1 : store_merge store sym cutoff batch = store := by
          rw [store_merge]
          simp only [h10, Bool.false_eq_true, if_false, h20]
        rw [hs1]
        exact hs1
  exact ⟨main, by rw [main]⟩

theorem ffillFrom_valid_id :
    ∀ (l : List RawRow), (∀ r ∈ l, ValidRaw r) →
      ∀ (o h lo c : Option ℚ) (v : Option ℤ), ffillFrom o h lo c v l = l := by
  intro l
  induction l with
  | nil => intro _ o h lo c v; rfl
  | cons r l ih =>
    intro hv o h lo c v
    have hr := hv r (List.mem_cons_self r l)
    obtain ⟨dte, o1, h1, l1, c1, v1⟩ := r
    obtain ⟨a, ha⟩ := Option.isSome_iff_exists.mp hr.1
    obtain ⟨b, hb⟩ := Option.isSome_iff_exists.mp hr.2.1
    obtain ⟨d, hd⟩ := Option.isSome_iff_exists.mp hr.2.2.1
    obtain ⟨e, he⟩ := Option.isSome_iff_exists.mp hr.2.2.2.1.2
    obtain ⟨f, hf⟩ := Option.isSome_iff_exists.mp hr.2.2.2.2
    simp only at ha hb hd he hf
    subst ha hb hd he hf
    rw [ffillFrom]
    simp only [Option.or]
    rw [ih (fun r hr => hv r (List.mem_cons_of_mem _ hr))]

theorem ffillCols_valid_id (l : List RawRow) (hv : ∀ r ∈ l, ValidRaw r) :
    ffillCols l = l :=
  ffillFrom_valid_id l hv none none none none none

theorem bfillCols_valid_id (l : List RawRow) (hv : ∀ r ∈ l, ValidRaw r) :
    bfillCols l = l := by
  rw [bfillCols, ffillCols_valid_id l.reverse
    (fun r hr => hv r (List.mem_reverse.mp hr)), List.reverse_reverse]

theorem filterMap_eq_map_of {α β : Type} (f : α → Option β) (g : α → β) :
    ∀ l : List α, (∀ r ∈ l, f r = some (g r)) → l.filterMap f = l.map g := by
  intro l
  induction l with
  | nil => intro _; rfl
  | cons a l ih =>
    intro hv
    rw [List.filterMap_cons, hv a (List.mem_cons_self a l),
      ih (fun r hr => hv r (List.mem_cons_of_mem _ hr))]
    rfl

theorem clean_data_valid_id (raw : List RawRow)
    (hv : ∀ r ∈ raw, ValidRaw r)
    (hsort : List.Pairwise (fun a b => a.date < b.date) raw) :
    clean_data raw = raw.map toCRow := by
  rw [clean_data, ffillCols_valid_id raw hv, bfillCols_valid_id raw hv]
  rw [filterMap_eq_map_of _ toCRow raw ?hf]
  · apply sortByKey_eq_self
    rw [KeySorted, List.pairwise_map]
    exact hsort.imp (fun h => le_of_lt h)
  case hf =>
    intro r hr
    obtain ⟨c, hc⟩ := Option.isSome_iff_exists.mp (hv r hr).2.2.2.1.2
    have hpos : 0 < c := by
      have := (hv r hr).2.2.2.1.1
      rw [hc] at this
      simpa using this
    simp [hc, toCRow, hpos]

theorem map_zipWith_fst {α β γ δ : Type} (f : α → β → γ) (g : γ → δ) (g2 : α → δ)
    (hp : ∀ a b, g (f a b) = g2 a) :
    ∀ (l : List α) (m : List β), l.length ≤ m.length →
      (List.zipWith f l m).map g = l.map g2 := by
  intro l
  induction l with
  | nil => intro m _; rfl
  | cons a l ih =>
    intro m hm
    cases m with
    | nil => simp at hm
    | cons b m =>
      simp only [List.zipWith_cons_cons, List.map_cons, hp,
        ih m (Nat.le_of_succ_le_succ (by simpa using hm))]

theorem length_rollingVol (w : ℕ) (xs : List ℚ) :
    (rollingVol w xs).length = xs.length := by
  simp [rollingVol]

theorem map_date_calculate_daily_return_q (l : List CRow) :
    (calculate_daily_return_q l).map (fun r => r.date) = l.map (fun r => r.date) := by
  rw [calculate_daily_return_q, List.map_map]
  rfl

theorem length_calculate_daily_return_q (l : List CRow) :
    (calculate_daily_return_q l).length = l.length := by
  simp [calculate_daily_return_q]

theorem map_date_calculate_moving_average (w : ℕ) (l : List DRow) :
    (calculate_moving_average w l).map (fun r => r.date) = l.map (fun r => r.date) := by
  rw [calculate_moving_average]
  refine map_zipWith_fst _ _ _ ?_ _ _ ?_
  · intro a b; rfl
  · rw [length_rollingMean, List.length_map]

theorem length_calculate_moving_average (w : ℕ) (l : List DRow) :
    (calculate_moving_average w l).length = l.length := by
  simp [calculate_moving_average, List.length_zipWith, length_rollingMean]

theorem map_date_calculate_volatility_score (w : ℕ) (l : List MRow) :
    (calculate_volatility_score w l).map (fun r => r.date) = l.map (fun r => r.date) := by
  rw [calculate_volatility_score]
  refine map_zipWith_fst _ _ _ ?_ _ _ ?_
  · intro a b; rfl
  · rw [length_rollingVol, List.length_map]

theorem length_calculate_volatility_score (w : ℕ) (l : List MRow) :
    (calculate_volatility_score w l).length = l.length := by
  simp [calculate_volatility_score, List.length_zipWith, length_rollingVol]

theorem map_date_process_data (raw : List RawRow)
    (hv : ∀ r ∈ raw, ValidRaw r)
    (hsort : List.Pairwise (fun a b => a.date < b.date) raw) :
    (process_data raw).map (fun r => r.date) = raw.map (fun r => r.date) := by
  rw [process_data, map_date_calculate_volatility_score, map_date_calculate_moving_average,
    map_date_calculate_daily_return_q, clean_data_valid_id raw hv hsort, List.map_map]
  rfl

theorem length_process_data (raw : List RawRow)
    (hv : ∀ r ∈ raw, ValidRaw r)
    (hsort : List.Pairwise (fun a b => a.date < b.date) raw) :
    (process_data raw).length = raw.length := by
  rw [process_data, length_calculate_volatility_score, length_calculate_moving_average,
    length_calculate_daily_return_q, clean_data_valid_id raw hv hsort, List.length_map]

theorem process_data_pairwise_lt (raw : List RawRow)
    (hv : ∀ r ∈ raw, ValidRaw r)
    (hsort : List.Pairwise (fun a b => a.date < b.date) raw) :
    List.Pairwise (fun a b => a.date < b.date) (process_data raw) := by
  have h1 : List.Pairwise (fun a b : ℤ => a < b)
      ((process_data raw).map (fun r => r.date)) := by
    rw [map_date_process_data raw hv hsort, List.pairwise_map]
    exact hsort
  exact List.pairwise_map.mp h1

theorem trimmedFrame_eq (raw : List RawRow) (days : ℕ)
    (hv : ∀ r ∈ raw, ValidRaw r)
    (hsort : List.Pairwise (fun a b => a.date < b.date) raw)
    (hle : days ≤ raw.length) :
    trimmedFrame raw days = (process_data raw).drop (raw.length - days) := by
  have hself : sortByKey (fun p => p.date) (process_data raw) = process_data raw :=
    sortByKey_eq_self _ _
      ((process_data_pairwise_lt raw hv hsort).imp (fun h => le_of_lt h))
  rw [trimmedFrame, hself, length_process_data raw hv hsort]
  by_cases hlt : days < raw.length
  · rw [if_pos (decide_eq_true hlt)]
  · have heq : raw.length - days = 0 := by omega
    rw [if_neg ?_, heq, List.drop_zero]
    intro hcon
    exact hlt (of_decide_eq_true hcon)

theorem noDupKeys_map_srowOfP (sym : String) :
    ∀ (df : List PRow), List.Pairwise (fun a b => a.date ≠ b.date) df →
      noDupKeys (df.map (srowOfP sym)) = true := by
  intro df
  induction df with
  | nil => intro _; rfl
  | cons p l ih =>
    intro hp
    rcases hp with _ | ⟨hpd, hl⟩
    rw [List.map_cons, noDupKeys, Bool.and_eq_true]
    constructor
    · rw [List.all_eq_true]
      intro s hs
      rcases List.mem_map.mp hs with ⟨q, hq, he⟩
      subst he
      have hne : p.date ≠ q.date := hpd q hq
      rw [keyClash]
      simp [srowOfP, hne]
    · exact ih hl

theorem insertAdmissible_nil (new : List SRow) (hnd : noDupKeys new = true) :
    insertAdmissible [] new = true := by
  rw [insertAdmissible, hnd, Bool.true_and, List.all_eq_true]
  intro r _
  rfl

theorem newRecsOf_empty_store (sym : String) (cutoff : ℤ) (df : List PRow) :
    newRecsOf [] sym cutoff df = df.map (srowOfP sym) := by
  rw [newRecsOf]
  have h : windowRead [] sym cutoff = [] := rfl
  rw [h]
  simp

/-- C2 (amended): on a cache miss with an empty store, a request for
`days` bars against a fetch returning `n ≥ days` valid bars with
strictly ascending dates D1..Dn inserts exactly the LAST `days` bars
into the store (the frame is trimmed to `days` rows before the merge,
so for days=5 and 10 fetched bars only 5 rows — D6..D10 — are
inserted, not all 10), and the response contains exactly those last
`days` bars ordered ascending by date. -/
theorem C2_cache_miss_merge (sym : String) (days : ℕ) (today : ℤ) (raw : List RawRow)
    (hknown : availableCompanies.contains sym = true)
    (hv : ∀ r ∈ raw, ValidRaw r)
    (hsort : List.Pairwise (fun a b => a.date < b.date) raw)
    (hdays : 1 ≤ days) (hlen : days ≤ raw.length) :
    (get_stock_data [] sym days today (some raw) false).response =
      Except.ok ((trimmedFrame raw days).map respOfP) ∧
    (get_stock_data [] sym days today (some raw) false).storeAfter.map (fun r => r.date) =
      (raw.map (fun r => r.date)).drop (raw.length - days) ∧
    (get_stock_data [] sym days today (some raw) false).storeAfter.length = days ∧
    ((trimmedFrame raw days).map respOfP).map (fun r => r.date) =
      (raw.map (fun r => r.date)).drop (raw.length - days) := by
  have hc : (!(windowRead [] sym (today - (days : ℤ))).isEmpty &&
      decide (days ≤ (windowRead [] sym (today - (days : ℤ))).length)) = false := rfl
  have hre : raw.isEmpty = false := by
    cases raw with
    | nil => simp at hlen; omega
    | cons a l => rfl
  have hres := get_stock_data_fetch_eq [] sym days today raw false hknown hc hre
  have hdf : trimmedFrame raw days = (process_data raw).drop (raw.length - days) :=
    trimmedFrame_eq raw days hv hsort hlen
  have hdfdates : (trimmedFrame raw days).map (fun r => r.date) =
      (raw.map (fun r => r.date)).drop (raw.length - days) := by
    rw [hdf, List.map_drop, map_date_process_data raw hv hsort]
  have hdflen : (trimmedFrame raw days).length = days := by
    rw [hdf, List.length_drop, length_process_data raw hv hsort]
    omega
  have hnr : newRecsOf [] sym (today - (days : ℤ)) (trimmedFrame raw days) =
      (trimmedFrame raw days).map (srowOfP sym) :=
    newRecsOf_empty_store sym (today - (days : ℤ)) (trimmedFrame raw days)
  have hdfne : trimmedFrame raw days ≠ [] := by
    intro he
    rw [he] at hdflen
    simp at hdflen
    omega
  have hnrne : (newRecsOf [] sym (today - (days : ℤ)) (trimmedFrame raw days)).isEmpty
      = false := by
    rw [hnr]
    cases hdl : trimmedFrame raw days with
    | nil => exact absurd hdl hdfne
    | cons a l => rfl
  have hpairne : List.Pairwise (fun a b : PRow => a.date ≠ b.date)
      (trimmedFrame raw days) := by
    rw [hdf]
    exact (List.Pairwise.sublist (List.drop_sublist _ _)
      (process_data_pairwise_lt raw hv hsort)).imp (fun h => ne_of_lt h)
  have hia : insertAdmissible []
      (newRecsOf [] sym (today - (days : ℤ)) (trimmedFrame raw days)) = true := by
    rw [hnr]
    exact insertAdmissible_nil _ (noDupKeys_map_srowOfP sym _ hpairne)
  have hnrne2 : ((trimmedFrame raw days).map (srowOfP sym)).isEmpty = false := by
    rw [← hnr]
    exact hnrne
  have hia2 : insertAdmissible [] ((trimmedFrame raw days).map (srowOfP sym)) = true := by
    rw [← hnr]
    exact hia
  have hsm : store_merge [] sym (today - (days : ℤ)) (trimmedFrame raw days) =
      (trimmedFrame raw days).map (srowOfP sym) := by
    rw [store_merge]
    simp only [hnr, hnrne2, Bool.false_eq_true, if_false, hia2, if_true, List.nil_append]
  have hmapdate : ((trimmedFrame raw days).map (srowOfP sym)).map (fun r => r.date) =
      (trimmedFrame raw days).map (fun r => r.date) := by
    rw [List.map_map]
    rfl
  have hfinal : get_stock_data [] sym days today (some raw) false =
      ⟨Except.ok ((trimmedFrame raw days).map respOfP), true,
        (trimmedFrame raw days).map (srowOfP sym)⟩ := by
    rw [hres]
    simp only [hnrne, Bool.false_eq_true, if_false, hsm]
  refine ⟨by rw [hfinal], ?_, ?_, ?_⟩
  · rw [hfinal]
    show ((trimmedFrame raw days).map (srowOfP sym)).map (fun r => r.date) = _
    rw [hmapdate, hdfdates]
  · rw [hfinal]
    show ((trimmedFrame raw days).map (srowOfP sym)).length = days
    rw [List.length_map, hdflen]
  · have hresp : ((trimmedFrame raw days).map respOfP).map (fun r => r.date) =
        (trimmedFrame raw days).map (fun r => r.date) := by
      rw [List.map_map]
      rfl
    rw [hresp, hdfdates]

theorem C2_cache_miss_merge_witness :
    ((∀ r ∈ c2raw, ValidRaw r) ∧
      List.Pairwise (fun a b : RawRow => a.date < b.date) c2raw ∧
      1 ≤ 5 ∧ 5 ≤ c2raw.length) ∧
    (get_stock_data [] "TCS" 5 10 (some c2raw) false).storeAfter.length = 5 ∧
    (get_stock_data [] "TCS" 5 10 (some c2raw) false).storeAfter.map (fun r => r.date) =
      (c2raw.map (fun r => r.date)).drop (c2raw.length - 5) :=
  ⟨⟨by decide, by decide, by decide, by decide⟩,
   (C2_cache_miss_merge "TCS" 5 10 c2raw rfl (by decide) (by decide) (by decide)
     (by decide)).2.2.1,
   (C2_cache_miss_merge "TCS" 5 10 c2raw rfl (by decide) (by decide) (by decide)
     (by decide)).2.1⟩

/-- C2 (counterexample to the claim as stated): for the ten-bar fetch
with `days = 5` against an empty store, the merge inserts 5 rows, not
the 10 the claim asserts. -/
theorem C2_cache_miss_merge_counterexample :
    (get_stock_data [] "TCS" 5 10 (some c2raw) false).storeAfter.length = 5 ∧
    (5 : ℕ) ≠ 10 := by
  constructor
  · rfl
  · decide

theorem sum_map_add {M : Type} [AddCommMonoid M] {α : Type} (f g : α → M) :
    ∀ l : List α, (l.map (fun x => f x + g x)).sum = (l.map f).sum + (l.map g).sum := by
  intro l
  induction l with
  | nil => simp
  | cons a l ih =>
    simp only [List.map_cons, List.sum_cons, ih]
    rw [add_add_add_comm]

theorem sum_comm_list {M : Type} [AddCommMonoid M] {α β : Type} (w : α → β → M) :
    ∀ (A : List α) (B : List β),
      (A.map (fun a => (B.map (w a)).sum)).sum =
        (B.map (fun b => (A.map (fun a => w a b)).sum)).sum := by
  intro A
  induction A with
  | nil => intro B; simp
  | cons a A ih =>
    intro B
    simp only [List.map_cons, List.sum_cons, ih]
    rw [← sum_map_add]

theorem sum_filter_map_ite {M : Type} [AddCommMonoid M] {β : Type} (p : β → Bool)
    (m : β → M) :
    ∀ B : List β, ((B.filter p).map m).sum =
      (B.map (fun b => if p b then m b else 0)).sum := by
  intro B
  induction B with
  | nil => rfl
  | cons b B ih =>
    by_cases h : p b
    · simp [h, ih]
    · simp [h, ih]

theorem sum_pairsAll {M : Type} [AddCommMonoid M] (g : Option ℚ × Option ℚ → M) :
    ∀ (A B : List CorrRow),
      ((pairsAll A B).map g).sum =
        (A.map (fun a => (B.map (fun b =>
          if b.date == a.date then g (a.close, b.close) else 0)).sum)).sum := by
  intro A
  induction A with
  | nil => intro B; rfl
  | cons a A ih =>
    intro B
    have hstep : pairsAll (a :: A) B =
        ((B.filter (fun b => b.date == a.date)).map (fun b => (a.close, b.close))) ++
          pairsAll A B := by
      rw [pairsAll, pairsAll, List.flatMap_cons]
    rw [hstep, List.map_append, List.sum_append, ih, List.map_cons, List.sum_cons]
    congr 1
    rw [List.map_map, sum_filter_map_ite]
    rfl

theorem sum_filterMap_match {M : Type} [AddCommMonoid M] {α β : Type} (v : α → Option β)
    (f : β → M) :
    ∀ l : List α, ((l.filterMap v).map f).sum =
      (l.map (fun x => match v x with | some y => f y | none => 0)).sum := by
  intro l
  induction l with
  | nil => rfl
  | cons a l ih =>
    rw [List.map_cons, List.sum_cons]
    cases hv : v a with
    | none =>
      rw [List.filterMap_cons_none hv, ih]
      exact (zero_add _).symm
    | some y =>
      rw [List.filterMap_cons_some hv, List.map_cons, List.sum_cons, ih]

theorem length_eq_sum_ones {α : Type} : ∀ l : List α, l.length = (l.map (fun _ => 1)).sum := by
  intro l
  induction l with
  | nil => rfl
  | cons a l ih =>
    rw [List.map_cons, List.sum_cons, List.length_cons, ih]
    omega

theorem int_beq_comm (x y : ℤ) : (x == y) = (y == x) := by
  by_cases h : x = y
  · simp [h]
  · have h2 : y ≠ x := fun he => h he.symm
    simp [h, h2]

theorem vstat_eq_double_sum {M : Type} [AddCommMonoid M] (f : ℚ → ℚ → M)
    (A B : List CorrRow) :
    ((validPairs A B).map (fun p => f p.1 p.2)).sum =
      (A.map (fun a => (B.map (fun b =>
        if b.date == a.date then vcell f a b else 0)).sum)).sum := by
  rw [validPairs, sum_filterMap_match, sum_pairsAll]
  congr 1
  apply List.map_congr_left
  intro a _
  congr 1
  apply List.map_congr_left
  intro b _
  by_cases h : b.date == a.date
  · rw [if_pos h, if_pos h, vcell]
    cases a.close <;> cases b.close <;> rfl
  · rw [if_neg h, if_neg h]

theorem vstat_swap {M : Type} [AddCommMonoid M] (f : ℚ → ℚ → M) (A B : List CorrRow) :
    ((validPairs A B).map (fun p => f p.1 p.2)).sum =
      ((validPairs B A).map (fun p => f p.2 p.1)).sum := by
  have h2 := vstat_eq_double_sum (M := M) (fun x y => f y x) B A
  rw [vstat_eq_double_sum f A B, h2, sum_comm_list]
  apply congrArg List.sum
  apply List.map_congr_left
  intro b _
  apply congrArg List.sum
  apply List.map_congr_left
  intro a _
  rw [int_beq_comm a.date b.date]
  by_cases h : (b.date == a.date) = true
  · rw [if_pos h, if_pos h]
    rw [vcell, vcell]
    cases a.close <;> cases b.close <;> rfl
  · rw [if_neg h, if_neg h]

theorem length_pairsAll_swap (A B : List CorrRow) :
    (pairsAll A B).length = (pairsAll B A).length := by
  rw [length_eq_sum_ones, length_eq_sum_ones,
    sum_pairsAll (M := ℕ) (fun _ => 1), sum_pairsAll (M := ℕ) (fun _ => 1), sum_comm_list]
  apply congrArg List.sum
  apply List.map_congr_left
  intro b _
  apply congrArg List.sum
  apply List.map_congr_left
  intro a _
  rw [int_beq_comm a.date b.date]

theorem length_validPairs_swap (A B : List CorrRow) :
    (validPairs A B).length = (validPairs B A).length := by
  rw [length_eq_sum_ones, length_eq_sum_ones]
  exact vstat_swap (M := ℕ) (fun _ _ => 1) A B

theorem pearsonOf_swap (n sx sy sxy sxx syy : ℚ) :
    pearsonOf n sx sy sxy sxx syy = pearsonOf n sy sx sxy syy sxx := by
  rw [pearsonOf, pearsonOf]
  by_cases h : n * sxx - sx * sx = 0 ∨ n * syy - sy * sy = 0
  · rw [if_pos h, if_pos (Or.symm h)]
  · rw [if_neg h, if_neg (fun h2 => h (Or.symm h2))]
    rw [mul_comm sy sx,
      mul_comm ((n * syy - sy * sy : ℚ) : ℝ) ((n * sxx - sx * sx : ℚ) : ℝ)]

theorem pearson_validPairs_swap (A B : List CorrRow) :
    pearson (validPairs A B) = pearson (validPairs B A) := by
  have hn : ((validPairs A B).length : ℚ) = ((validPairs B A).length : ℚ) := by
    rw [length_validPairs_swap]
  have hsx : ((validPairs A B).map (fun p => p.1)).sum =
      ((validPairs B A).map (fun p => p.2)).sum :=
    vstat_swap (fun x _ => x) A B
  have hsy : ((validPairs A B).map (fun p => p.2)).sum =
      ((validPairs B A).map (fun p => p.1)).sum :=
    vstat_swap (fun _ y => y) A B
  have hsxy : ((validPairs A B).map (fun p => p.1 * p.2)).sum =
      ((validPairs B A).map (fun p => p.1 * p.2)).sum := by
    have h1 : ((validPairs A B).map (fun p => p.1 * p.2)).sum =
        ((validPairs B A).map (fun p => p.2 * p.1)).sum :=
      vstat_swap (fun x y => x * y) A B
    rw [h1]
    apply congrArg List.sum
    apply List.map_congr_left
    intro p _
    exact mul_comm p.2 p.1
  have hsxx : ((validPairs A B).map (fun p => p.1 * p.1)).sum =
      ((validPairs B A).map (fun p => p.2 * p.2)).sum :=
    vstat_swap (fun x _ => x * x) A B
  have hsyy : ((validPairs A B).map (fun p => p.2 * p.2)).sum =
      ((validPairs B A).map (fun p => p.1 * p.1)).sum :=
    vstat_swap (fun _ y => y * y) A B
  rw [pearson, pearson, hn, hsx, hsy, hsxy, hsxx, hsyy]
  exact pearsonOf_swap _ _ _ _ _ _

/-- C10: `calculate_correlation` is symmetric in its two frames,
including every degenerate branch (empty frame, missing column, fewer
than 2 aligned or valid pairs, undefined correlation — all 0). -/
theorem C10_correlation_symmetric (df1 df2 : CorrFrame) :
    calculate_correlation df1 df2 = calculate_correlation df2 df1 := by
  rw [calculate_correlation, calculate_correlation]
  rw [Bool.or_comm df1.rows.isEmpty df2.rows.isEmpty]
  by_cases hemp : (df2.rows.isEmpty || df1.rows.isEmpty) = true
  · rw [if_pos hemp, if_pos hemp]
  · rw [if_neg hemp, if_neg hemp]
    by_cases hc1 : (!df1.hasDate || !df1.hasClose) = true <;>
      by_cases hc2 : (!df2.hasDate || !df2.hasClose) = true
    · rw [if_pos hc1, if_pos hc2]
    · rw [if_pos hc1, if_neg hc2, if_pos hc1]
    · rw [if_neg hc1, if_pos hc2, if_pos hc2]
    · rw [if_neg hc1, if_neg hc2, if_neg hc2, if_neg hc1]
      rw [length_pairsAll_swap df1.rows df2.rows]
      by_cases hm : (pairsAll df2.rows df1.rows).length < 2
      · rw [if_pos hm, if_pos hm]
      · rw [if_neg hm, if_neg hm]
        rw [length_validPairs_swap df1.rows df2.rows]
        by_cases hv2 : (validPairs df2.rows df1.rows).length < 2
        · rw [if_pos hv2, if_pos hv2]
        · rw [if_neg hv2, if_neg hv2]
          rw [pearson_validPairs_swap df1.rows df2.rows]
